import Mathlib

/-!
Verification development for the repertoire core of MOME_PGX
(`qdax/core/containers/biased_sampling_mome_repertoire.py`).

The Python code manipulates IEEE-754 floating point arrays.  All the
values the code produces on the inputs considered here are exact small
rationals or the special values `inf`, `-inf`, `nan`, so the embedding
models a float as either a rational number or one of the three special
values, with IEEE-754 rules for the special values (`inf * 0 = nan`,
`x - nan = nan`, `0 / 0 = nan`, `x / 0 = ±inf` for finite nonzero `x`,
comparisons with `nan` are false, `inf == inf` is true).  Signed zero
and rounding play no role for the computations modelled here.

Arrays become lists; `jnp` reductions, sorts and gathers are translated
operation by operation.  `jnp.argsort` is a stable ascending sort that
places `nan` last; it is modelled by an insertion sort of indices under
the lexicographic order (value, index), which produces the same, unique,
result.
-/

/-- Rational addition through `mkRat`, which (unlike `Rat.add`) is not
`@[irreducible]`, so that concrete runs of the embedding reduce inside
`decide`.  `qadd_eq` below identifies it with `+`. -/
def qadd (a b : ℚ) : ℚ := mkRat (a.num * b.den + b.num * a.den) (a.den * b.den)

/-- Rational multiplication through `mkRat`; `qmul_eq` identifies it with `*`. -/
def qmul (a b : ℚ) : ℚ := mkRat (a.num * b.num) (a.den * b.den)

/-- Rational division through `Rat.divInt`; for a nonzero divisor `qdiv_eq`
identifies it with `/`. -/
def qdiv (a b : ℚ) : ℚ := Rat.divInt (a.num * b.den) (a.den * b.num)

/-- Model of an IEEE-754 double: a rational or one of the special values. -/
inductive FF where
  | nan : FF
  | ninf : FF
  | pinf : FF
  | fin : ℚ → FF
deriving DecidableEq, Repr

/-- IEEE negation. -/
def FF.neg : FF → FF
  | .nan => .nan
  | .ninf => .pinf
  | .pinf => .ninf
  | .fin q => .fin (-q)

/-- IEEE addition: `nan` propagates, `inf + (-inf) = nan`, infinities absorb. -/
def FF.add : FF → FF → FF
  | .nan, _ => .nan
  | _, .nan => .nan
  | .pinf, .ninf => .nan
  | .ninf, .pinf => .nan
  | .pinf, _ => .pinf
  | _, .pinf => .pinf
  | .ninf, _ => .ninf
  | _, .ninf => .ninf
  | .fin a, .fin b => .fin (qadd a b)

/-- IEEE subtraction, defined as addition of the negation. -/
def FF.sub (a b : FF) : FF := a.add b.neg

/-- IEEE multiplication: `nan` propagates and `inf * 0 = nan`. -/
def FF.mul : FF → FF → FF
  | .nan, _ => .nan
  | _, .nan => .nan
  | .pinf, .pinf => .pinf
  | .pinf, .ninf => .ninf
  | .ninf, .pinf => .ninf
  | .ninf, .ninf => .pinf
  | .pinf, .fin q => if 0 < q then .pinf else if q < 0 then .ninf else .nan
  | .fin q, .pinf => if 0 < q then .pinf else if q < 0 then .ninf else .nan
  | .ninf, .fin q => if 0 < q then .ninf else if q < 0 then .pinf else .nan
  | .fin q, .ninf => if 0 < q then .ninf else if q < 0 then .pinf else .nan
  | .fin a, .fin b => .fin (qmul a b)

/-- IEEE division: `nan` propagates, `inf / inf = nan`, `0 / 0 = nan`,
`x / 0 = ±inf` for finite nonzero `x` (zero is unsigned here, i.e. `+0`). -/
def FF.div : FF → FF → FF
  | .nan, _ => .nan
  | _, .nan => .nan
  | .pinf, .pinf => .nan
  | .pinf, .ninf => .nan
  | .ninf, .pinf => .nan
  | .ninf, .ninf => .nan
  | .pinf, .fin q => if 0 ≤ q then .pinf else .ninf
  | .ninf, .fin q => if 0 ≤ q then .ninf else .pinf
  | .fin _, .pinf => .fin 0
  | .fin _, .ninf => .fin 0
  | .fin a, .fin b =>
      if b = 0 then (if a = 0 then .nan else if 0 < a then .pinf else .ninf)
      else .fin (qdiv a b)

/-- IEEE strict comparison: any comparison with `nan` is false. -/
def FF.lt : FF → FF → Bool
  | .nan, _ => false
  | _, .nan => false
  | .ninf, .ninf => false
  | .ninf, _ => true
  | _, .ninf => false
  | .pinf, _ => false
  | _, .pinf => true
  | .fin a, .fin b => a < b

/-- IEEE equality test: `nan` is equal to nothing, each infinity equals itself. -/
def FF.beq : FF → FF → Bool
  | .nan, _ => false
  | _, .nan => false
  | .ninf, .ninf => true
  | .pinf, .pinf => true
  | .fin a, .fin b => a = b
  | _, _ => false

/-- IEEE non-strict comparison. -/
def FF.le (a b : FF) : Bool := FF.lt a b || FF.beq a b

/-- Test for `nan`. -/
def FF.isnan : FF → Bool
  | .nan => true
  | _ => false

/-- Cast of a boolean to a float, as done implicitly by `jnp` promotions. -/
def b2f (b : Bool) : FF := .fin (if b then 1 else 0)

/-- Sort key rank used by `jnp.argsort`: `nan` sorts last, after `inf`. -/
def FF.skey : FF → ℕ
  | .ninf => 0
  | .fin _ => 1
  | .pinf => 2
  | .nan => 3

/-- Strict order used by `jnp.argsort` (ascending, `nan` treated as largest). -/
def FF.slt : FF → FF → Bool
  | .fin a, .fin b => a < b
  | a, b => a.skey < b.skey

/-- Binary maximum over non-`nan` values. -/
def FF.max2 (a b : FF) : FF := if FF.lt a b then b else a

/-- Binary minimum over non-`nan` values. -/
def FF.min2 (a b : FF) : FF := if FF.lt b a then b else a

/-- Model of `jnp.nanmax`: maximum ignoring `nan`; `nan` when all entries are `nan`. -/
def nanmaxL (l : List FF) : FF :=
  match l.filter (fun x => !x.isnan) with
  | [] => .nan
  | h :: t => t.foldl FF.max2 h

/-- Model of `jnp.nanmin`: minimum ignoring `nan`; `nan` when all entries are `nan`. -/
def nanminL (l : List FF) : FF :=
  match l.filter (fun x => !x.isnan) with
  | [] => .nan
  | h :: t => t.foldl FF.min2 h

/-- Model of `jnp.sum` over a float vector. -/
def sumFF (l : List FF) : FF := l.foldr FF.add (.fin 0)

/-- Model of `jnp.nansum`: sum ignoring `nan` entries (`0.0` when all are `nan`). -/
def nansumFF (l : List FF) : FF := sumFF (l.filter (fun x => !x.isnan))

/-- Insertion step of the stable index sort. -/
def insertIdx2 (le : ℕ → ℕ → Bool) (i : ℕ) : List ℕ → List ℕ
  | [] => [i]
  | j :: t => if le i j then i :: j :: t else j :: insertIdx2 le i t

/-- Insertion sort of an index list under a total comparison. -/
def sortIdx (le : ℕ → ℕ → Bool) : List ℕ → List ℕ
  | [] => []
  | i :: t => insertIdx2 le i (sortIdx le t)

/-- Model of `jnp.argsort` on a float vector: stable ascending sort of the
indices, `nan` placed last.  Ties are broken by index order, which makes the
comparison below a linear order, so the result is the unique sorted list. -/
def argsortFF (v : List FF) : List ℕ :=
  sortIdx
    (fun i j =>
      let a := v.getD i .nan
      let b := v.getD j .nan
      if FF.slt a b then true else if FF.slt b a then false else i ≤ j)
    (List.range v.length)

/-- Model of `jnp.argsort` on an integer vector. -/
def argsortNat (v : List ℕ) : List ℕ :=
  sortIdx
    (fun i j =>
      let a := v.getD i 0
      let b := v.getD j 0
      if a < b then true else if b < a then false else i ≤ j)
    (List.range v.length)

/-- Model of `jnp.sort` on an integer vector (values sorted ascending). -/
def sortNatVals (l : List ℕ) : List ℕ :=
  (argsortNat l).map (fun i => l.getD i 0)

/-- Entry of a row-major matrix, `nan`-defaulted out of range. -/
def getEntry (m : List (List FF)) (i j : ℕ) : FF := (m.getD i []).getD j .nan

/-!
`BiasedSamplingMOMERepertoire._sample_in_masked_pareto_front`, lines 57-148.
The function receives one cell's front fitnesses (shape `(L, C)`) and the
boolean emptiness mask of the front (`True` = empty slot), and computes the
selection probability vector over the `L` slots.  The genotype draw itself
(`jax.random.choice`) consumes this vector.
-/

/-- Line 79: `not_empty_mask = 1.0 - mask` (boolean mask promoted to float). -/
def notEmptyF (mask : List Bool) : List FF :=
  mask.map (fun b => (FF.fin 1).sub (b2f b))

/-- Line 80: `num_solutions = jnp.sum(not_empty_mask)`. -/
def numSolutionsF (mask : List Bool) : FF := sumFF (notEmptyF mask)

/-- Lines 84-90: the uniform branch `not_empty_mask / jnp.sum(not_empty_mask)`. -/
def computeEqualProbabilities (mask : List Bool) : List FF :=
  (notEmptyF mask).map (fun x => x.div (numSolutionsF mask))

/-- Lines 92-141: the crowding-distance branch of the per-front sampler,
translated statement by statement (including the boundary substitution of
lines 119-121, the `nan`-to-zero step of line 136 and the normalisation by
`jnp.nansum` of line 139). -/
def computeCrowdingDistancesProbs (pf : List (List FF)) (mask : List Bool) :
    List FF :=
  let n := pf.length
  let C := (pf.getD 0 []).length
  let notE := notEmptyF mask
  let maskAt := fun (i : ℕ) => notE.getD i .nan
  -- line 101: per-objective amplitude over `fitnesses * mask_dist`, ignoring nan
  let prod := fun (j : ℕ) => (List.range n).map (fun i => (getEntry pf i j).mul (maskAt i))
  let amp := fun (j : ℕ) => (nanmaxL (prod j)).sub (nanminL (prod j))
  -- lines 103-105: inflate by `3 * amplitude * ones * mask_dist`
  let distFit := fun (i j : ℕ) =>
    (getEntry pf i j).add ((((FF.fin 3).mul (amp j)).mul (FF.fin 1)).mul (maskAt i))
  -- line 107: per-column stable argsort
  let sortedIndex := fun (j : ℕ) => argsortFF ((List.range n).map (fun i => distFit i j))
  -- line 108: fitness values gathered in sorted order
  let srt := fun (i j : ℕ) => getEntry pf ((sortedIndex j).getD i 0) j
  -- lines 111-113: consecutive gaps with `±inf` padding
  let dists := fun (i j : ℕ) =>
    (if i < n then srt i j else FF.pinf).sub (if i = 0 then FF.ninf else srt (i - 1) j)
  -- lines 116-117: normalised gaps to the previous and next neighbour
  let d2l := fun (i j : ℕ) => (dists i j).div (amp j)
  let d2n := fun (i j : ℕ) => (dists (i + 1) j).div (amp j)
  -- lines 120-121: replace a missing (infinite) boundary gap by the other side
  let d2lWE := fun (i j : ℕ) => if (d2l i j).beq FF.pinf then d2n i j else d2l i j
  let d2nWE := fun (i j : ℕ) => if (d2n i j).beq FF.pinf then d2l i j else d2n i j
  -- line 124: inverse permutation via argsort of the integer sort index
  let inv := fun (j : ℕ) => argsortNat (sortedIndex j)
  -- lines 125-134: average the two gaps across objectives, back in entry order
  let crowd := fun (i : ℕ) =>
    (sumFF ((List.range C).map (fun j =>
      (d2lWE ((inv j).getD i 0) j).add (d2nWE ((inv j).getD i 0) j)))).div (FF.fin C)
  -- line 136: nan (empty slot) probability set to 0
  let crowd2 := (List.range n).map (fun i => if (crowd i).isnan then FF.fin 0 else crowd i)
  -- line 139: normalise by the nansum
  crowd2.map (fun x => x.div (nansumFF crowd2))

/-- Lines 143-148: the `jax.lax.cond` dispatch between the uniform branch
(at most 2 valid entries) and the crowding-distance branch. -/
def selectionProbs (pf : List (List FF)) (mask : List Bool) : List FF :=
  if (numSolutionsF mask).le (FF.fin 2) then computeEqualProbabilities mask
  else computeCrowdingDistancesProbs pf mask

/-!
`BiasedSamplingMOMERepertoire.sample`, lines 157-212: the distribution over
cells.  A slot is empty iff some objective equals `-inf` (line 173), a cell is
occupied iff some slot is not empty (line 174), and the cell distribution is
`occupied_cells / jnp.sum(occupied_cells)` (line 176).
-/

/-- Line 173 for one slot: `jnp.any(fitness == -jnp.inf, axis=-1)`. -/
def slotEmpty (row : List FF) : Bool := row.any (fun x => x.beq FF.ninf)

/-- Line 174 for one cell: occupied iff some front slot is not empty. -/
def cellOccupied (cell : List (List FF)) : Bool := cell.any (fun row => !slotEmpty row)

/-- Number of occupied cells, `jnp.sum(occupied_cells)`. -/
def occupiedCount (fitnesses : List (List (List FF))) : ℕ :=
  fitnesses.countP (fun cell => cellOccupied cell)

/-- Line 176: the per-cell selection probability vector
`occupied_cells / jnp.sum(occupied_cells)` (booleans promoted to float). -/
def cellProbs (fitnesses : List (List (List FF))) : List FF :=
  fitnesses.map (fun cell => (b2f (cellOccupied cell)).div (FF.fin (occupiedCount fitnesses)))

/-!
`BiasedSamplingMOMERepertoire._update_masked_pareto_front`, lines 214-377.
-/

/-- Modelled from the spec: Pareto domination as defined in section 4.1
(the implementation, `qdax.utils.pareto_front.compute_masked_pareto_front`,
is imported from the qdax package and is not under `src/`): entry `a`
dominates entry `b` iff `a` is at least `b` on every objective and strictly
greater on at least one. -/
def dominatesSpec (a b : List FF) : Bool :=
  ((a.zip b).all fun p => FF.le p.2 p.1) && ((a.zip b).any fun p => FF.lt p.2 p.1)

/-- Modelled from the spec: `compute_masked_pareto_front` per section 4.1 —
the output is true iff the slot is valid (not masked) and no other valid slot
dominates it; masked slots never dominate and are never marked non-dominated. -/
def compute_masked_pareto_front (criteria : List (List FF)) (mask : List Bool) :
    List Bool :=
  (List.range criteria.length).map fun i =>
    !(mask.getD i true) &&
      !((List.range criteria.length).any fun k =>
        !(mask.getD k true) && dominatesSpec (criteria.getD k []) (criteria.getD i []))

/-- Lines 267-277: compacted gather indices of the merged front.  A slot on
the front keeps its own index, every other slot is sent to the last index
`L + B - 1`, and the indices are sorted ascending. -/
def updateIndices (boolFront : List Bool) : List ℕ :=
  let n := boolFront.length
  sortNatVals ((List.range n).map (fun i => if boolFront.getD i false then i else n - 1))

/-- Lines 296-303 for one entry of a kept (`new_front_mask = True`) or
dropped row: `x * mask - inf * (~mask)`, then `nan` mapped to `-inf`.
Note that for a kept row the second term is `inf * 0 = nan`, so the whole
entry becomes `nan` and is then mapped to `-inf` by line 303. -/
def maskedFitnessEntry (keep : Bool) (x : FF) : FF :=
  let y := (x.mul (b2f keep)).sub (FF.pinf.mul (b2f (!keep)))
  if y.isnan then FF.ninf else y

/-- Lines 253-311: the merged, compacted and sentinel-masked fitness matrix
(`all_front_fitnesses` after line 303). -/
def updateAllFrontFitnesses (pfF : List (List FF)) (mask : List Bool)
    (bF : List (List FF)) (newMask : List Bool) : List (List FF) :=
  let catF := pfF ++ bF
  let catMask := mask ++ newMask
  let boolFront := compute_masked_pareto_front catF catMask
  let idxs := updateIndices boolFront
  let allF := idxs.map (fun p => catF.getD p [])
  let numFront := boolFront.countP id
  (List.range allF.length).map fun i =>
    (allF.getD i []).map (maskedFitnessEntry (decide (i < numFront)))

/-- Lines 313-352: the crowding-distance vector of the truncation path,
computed on the sentinel-masked fitness matrix.  There is no boundary-gap
substitution in this path; the only post-processing is `nan` to `-inf`
(line 352). -/
def updateCrowdingDistances (f2 : List (List FF)) : List FF :=
  let n := f2.length
  let C := (f2.getD 0 []).length
  let empty := fun (i : ℕ) => slotEmpty (f2.getD i [])
  let maskAt := fun (i : ℕ) => b2f (!empty i)
  let prod := fun (j : ℕ) => (List.range n).map (fun i => (getEntry f2 i j).mul (maskAt i))
  let amp := fun (j : ℕ) => (nanmaxL (prod j)).sub (nanminL (prod j))
  let distFit := fun (i j : ℕ) =>
    (getEntry f2 i j).add ((((FF.fin 3).mul (amp j)).mul (FF.fin 1)).mul (maskAt i))
  let sortedIndex := fun (j : ℕ) => argsortFF ((List.range n).map (fun i => distFit i j))
  let srt := fun (i j : ℕ) => getEntry f2 ((sortedIndex j).getD i 0) j
  let dists := fun (i j : ℕ) =>
    (if i < n then srt i j else FF.pinf).sub (if i = 0 then FF.ninf else srt (i - 1) j)
  let d2l := fun (i j : ℕ) => (dists i j).div (amp j)
  let d2n := fun (i j : ℕ) => (dists (i + 1) j).div (amp j)
  let inv := fun (j : ℕ) => argsortNat (sortedIndex j)
  let crowd := fun (i : ℕ) =>
    (sumFF ((List.range C).map (fun j =>
      (d2l ((inv j).getD i 0) j).add (d2n ((inv j).getD i 0) j)))).div (FF.fin C)
  (List.range n).map (fun i => if (crowd i).isnan then FF.ninf else crowd i)

/-- Lines 354-358: truncation keeps the last `L` positions of the stable
ascending argsort of the crowding distances (`sorted_distances_index[-L:]`;
for `L = 0` the Python slice `[-0:]` keeps everything). -/
def updateKeepIndices (f2 : List (List FF)) (L : ℕ) : List ℕ :=
  let s := argsortFF (updateCrowdingDistances f2)
  if L = 0 then s else s.drop (s.length - L)

/-- Line 374: `jnp.any(new_front_fitnesses == new_batch_of_fitnesses)` —
an elementwise equality test under numpy broadcasting of `(L, C)` against
`(B, C)`, which requires `B = 1`, `B = L` or `L = 1`. -/
def anyBroadcastEq (a b : List (List FF)) : Bool :=
  if b.length = 1 then
    a.any (fun row => ((row.zip (b.getD 0 [])).any fun p => p.1.beq p.2))
  else if a.length = b.length then
    ((a.zip b).any fun rows => ((rows.1.zip rows.2).any fun p => p.1.beq p.2))
  else if a.length = 1 then
    b.any (fun row => (((a.getD 0 []).zip row).any fun p => p.1.beq p.2))
  else false

/-- Result record of `_update_masked_pareto_front` (lines 225-227 and 377). -/
structure UpdateResult where
  fitnesses : List (List FF)
  genotypes : List (List FF)
  descriptors : List (List FF)
  mask : List Bool
  added : Bool
  removed : ℤ
deriving DecidableEq, Repr

/-- Lines 214-377: `_update_masked_pareto_front`, translated statement by
statement.  Genotypes are modelled as one flat float vector per slot (the
code maps the same operation over every pytree leaf). -/
def updateMaskedParetoFront (pfF pfG pfD : List (List FF)) (mask : List Bool)
    (bF bG bD : List (List FF)) (newMask : List Bool) : UpdateResult :=
  let L := pfF.length
  let catF := pfF ++ bF
  let catG := pfG ++ bG
  let catD := pfD ++ bD
  let catMask := mask ++ newMask
  let boolFront := compute_masked_pareto_front catF catMask
  let idxs := updateIndices boolFront
  let allG := idxs.map (fun p => catG.getD p [])
  let allD := idxs.map (fun p => catD.getD p [])
  let numFront := boolFront.countP id
  -- lines 296-303
  let f2 := updateAllFrontFitnesses pfF mask bF newMask
  -- lines 305-307: the genotype mask is indexed with `[0]`, a scalar
  let g1 := allG.map (List.map (fun x => x.mul (b2f (decide (0 < numFront)))))
  -- lines 308-311
  let d1 := (List.range allD.length).map fun i =>
    (allD.getD i []).map (fun x => x.mul (b2f (decide (i < numFront))))
  -- line 314 (recomputed on the sentinel-masked fitnesses)
  let empty := fun (i : ℕ) => slotEmpty (f2.getD i [])
  -- lines 354-358
  let keep := updateKeepIndices f2 L
  -- lines 360-363: turn `-inf` fitness entries back to zero
  let f3 := f2.map (List.map (fun x => if x.beq FF.ninf then FF.fin 0 else x))
  -- lines 365-371
  let newF := keep.map (fun p => f3.getD p [])
  let newG := keep.map (fun p => g1.getD p [])
  let newD := keep.map (fun p => d1.getD p [])
  let outMask := keep.map (fun p => empty p)
  -- lines 373-375
  let added := anyBroadcastEq newF bF
  let removed : ℤ :=
    (mask.countP (fun b => !b) : ℤ) - (outMask.countP (fun b => !b) : ℤ) -
      (if added then 1 else 0)
  ⟨newF, newG, newD, outMask, added, removed⟩

/-- Count of valid (non-empty) slots of a mask (`jnp.sum(~mask)`). -/
def validCount (mask : List Bool) : ℕ := mask.countP (fun b => !b)

/-! ### Helper lemmas -/

theorem qadd_eq (a b : ℚ) : qadd a b = a + b := by
  unfold qadd
  rw [Rat.mkRat_eq_div]
  have ha : ((a.den : ℚ)) ≠ 0 := by exact_mod_cast a.den_nz
  have hb : ((b.den : ℚ)) ≠ 0 := by exact_mod_cast b.den_nz
  conv_rhs => rw [← Rat.num_div_den a, ← Rat.num_div_den b]
  rw [div_add_div _ _ ha hb]
  push_cast
  ring_nf

theorem qmul_eq (a b : ℚ) : qmul a b = a * b := by
  unfold qmul
  rw [Rat.mkRat_eq_div]
  conv_rhs => rw [← Rat.num_div_den a, ← Rat.num_div_den b]
  rw [div_mul_div_comm]
  push_cast
  ring_nf

theorem qdiv_eq (a b : ℚ) (h : b ≠ 0) : qdiv a b = a / b := by
  unfold qdiv
  rw [Rat.divInt_eq_div]
  have ha : ((a.den : ℚ)) ≠ 0 := by exact_mod_cast a.den_nz
  have hb : ((b.den : ℚ)) ≠ 0 := by exact_mod_cast b.den_nz
  have hbn : ((b.num : ℚ)) ≠ 0 := by
    exact_mod_cast Rat.num_ne_zero.mpr h
  conv_rhs => rw [← Rat.num_div_den a, ← Rat.num_div_den b]
  rw [div_div_div_eq]
  push_cast
  ring_nf

theorem length_insertIdx2 (le : ℕ → ℕ → Bool) (i : ℕ) (l : List ℕ) :
    (insertIdx2 le i l).length = l.length + 1 := by
  induction l with
  | nil => rfl
  | cons j t ih =>
      simp only [insertIdx2]
      split
      · simp
      · simp [ih]

theorem length_sortIdx (le : ℕ → ℕ → Bool) (l : List ℕ) :
    (sortIdx le l).length = l.length := by
  induction l with
  | nil => rfl
  | cons i t ih => simp [sortIdx, length_insertIdx2, ih]

theorem length_argsortFF (v : List FF) : (argsortFF v).length = v.length := by
  simp [argsortFF, length_sortIdx]

theorem length_argsortNat (v : List ℕ) : (argsortNat v).length = v.length := by
  simp [argsortNat, length_sortIdx]

theorem length_sortNatVals (l : List ℕ) : (sortNatVals l).length = l.length := by
  simp [sortNatVals, length_argsortNat]

theorem length_compute_masked_pareto_front (c : List (List FF)) (m : List Bool) :
    (compute_masked_pareto_front c m).length = c.length := by
  simp [compute_masked_pareto_front]

theorem length_updateIndices (b : List Bool) : (updateIndices b).length = b.length := by
  simp [updateIndices, length_sortNatVals]

theorem length_updateAllFrontFitnesses (pfF : List (List FF)) (mask : List Bool)
    (bF : List (List FF)) (newMask : List Bool) :
    (updateAllFrontFitnesses pfF mask bF newMask).length = pfF.length + bF.length := by
  simp [updateAllFrontFitnesses, length_updateIndices, length_compute_masked_pareto_front]

theorem length_updateCrowdingDistances (f2 : List (List FF)) :
    (updateCrowdingDistances f2).length = f2.length := by
  simp [updateCrowdingDistances]

theorem length_updateKeepIndices (f2 : List (List FF)) (L : ℕ) (h1 : 1 ≤ L)
    (h2 : L ≤ f2.length) : (updateKeepIndices f2 L).length = L := by
  have hL : L ≠ 0 := by omega
  simp only [updateKeepIndices, hL, if_false, List.length_drop, length_argsortFF,
    length_updateCrowdingDistances]
  omega

theorem maskedFitnessEntry_eq_ninf (k : Bool) (x : FF) :
    maskedFitnessEntry k x = FF.ninf := by
  cases k <;> cases x <;> rfl

theorem mem_updateAllFrontFitnesses (pfF : List (List FF)) (mask : List Bool)
    (bF : List (List FF)) (newMask : List Bool) :
    ∀ row ∈ updateAllFrontFitnesses pfF mask bF newMask, ∀ x ∈ row, x = FF.ninf := by
  intro row hrow x hx
  simp only [updateAllFrontFitnesses, List.mem_map] at hrow
  obtain ⟨i, _, hi⟩ := hrow
  rw [← hi] at hx
  simp only [List.mem_map] at hx
  obtain ⟨y, _, hy⟩ := hx
  rw [← hy, maskedFitnessEntry_eq_ninf]

theorem getD_map_lt {α β : Type} (l : List α) (f : α → β) (p : ℕ) (d : α) (db : β)
    (h : p < l.length) : (l.map f).getD p db = f (l.getD p d) := by
  rw [List.getD_eq_getElem _ _ (by simpa using h), List.getD_eq_getElem _ _ h,
    List.getElem_map]

theorem updateAllFrontFitnesses_getD_nil (pfF : List (List FF)) (mask : List Bool)
    (bF : List (List FF)) (newMask : List Bool) (p : ℕ)
    (h : slotEmpty ((updateAllFrontFitnesses pfF mask bF newMask).getD p []) = false) :
    (updateAllFrontFitnesses pfF mask bF newMask).getD p [] = [] := by
  cases hrow : (updateAllFrontFitnesses pfF mask bF newMask).getD p [] with
  | nil => rfl
  | cons x t =>
      exfalso
      rcases Nat.lt_or_ge p (updateAllFrontFitnesses pfF mask bF newMask).length
        with hp | hp
      · have hmem : (updateAllFrontFitnesses pfF mask bF newMask).getD p []
            ∈ updateAllFrontFitnesses pfF mask bF newMask := by
          rw [List.getD_eq_getElem _ _ hp]
          exact List.getElem_mem hp
        have hxmem : x ∈ (updateAllFrontFitnesses pfF mask bF newMask).getD p [] := by
          rw [hrow]
          exact List.mem_cons_self x t
        have hx : x = FF.ninf :=
          mem_updateAllFrontFitnesses pfF mask bF newMask _ hmem x hxmem
        rw [hrow] at h
        simp [slotEmpty, hx, FF.beq] at h
      · rw [List.getD_eq_default _ _ hp] at hrow
        exact List.noConfusion hrow

theorem dominatesSpec_nil (b : List FF) : dominatesSpec [] b = false := rfl

theorem zip_map_snd {α β : Type} (l : List α) (f : α → β) :
    ∀ p ∈ l.zip (l.map f), p.2 = f p.1 := by
  induction l with
  | nil => simp
  | cons a t ih =>
      intro p hp
      simp only [List.map_cons, List.zip_cons_cons, List.mem_cons] at hp
      rcases hp with h | h
      · subst h; rfl
      · exact ih p h

theorem numSolutionsF_eq (mask : List Bool) :
    numSolutionsF mask = FF.fin (validCount mask : ℚ) := by
  induction mask with
  | nil => simp [numSolutionsF, notEmptyF, sumFF, validCount]
  | cons b t ih =>
      have step : numSolutionsF (b :: t)
          = FF.add ((FF.fin 1).sub (b2f b)) (numSolutionsF t) := rfl
      cases b
      · rw [step, ih]
        simp only [b2f, FF.sub, FF.neg, FF.add, qadd_eq, validCount, List.countP_cons]
        norm_num
        ring
      · rw [step, ih]
        simp only [b2f, FF.sub, FF.neg, FF.add, qadd_eq, validCount, List.countP_cons]
        norm_num

theorem fin_div_fin (a c : ℚ) (h : c ≠ 0) :
    (FF.fin a).div (FF.fin c) = FF.fin (a / c) := by
  simp [FF.div, h, qdiv_eq a c h]

theorem computeEqualProbabilities_eq (mask : List Bool) (h : validCount mask ≠ 0) :
    computeEqualProbabilities mask
      = mask.map (fun b => if b then FF.fin 0 else FF.fin (1 / (validCount mask : ℚ))) := by
  have hc : ((validCount mask : ℚ)) ≠ 0 := by
    exact_mod_cast h
  unfold computeEqualProbabilities notEmptyF
  rw [numSolutionsF_eq, List.map_map]
  apply List.map_congr_left
  intro b _
  cases b
  · have h1 : (FF.fin 1).sub (b2f false) = FF.fin 1 := by
      simp [FF.sub, FF.neg, FF.add, b2f, qadd_eq]
    simp [Function.comp, h1, fin_div_fin 1 _ hc]
  · have h1 : (FF.fin 1).sub (b2f true) = FF.fin 0 := by
      simp [FF.sub, FF.neg, FF.add, b2f, qadd_eq]
    simp [Function.comp, h1, fin_div_fin 0 _ hc]

theorem selectionProbs_small (pf : List (List FF)) (mask : List Bool)
    (h : validCount mask = 1 ∨ validCount mask = 2) :
    selectionProbs pf mask
      = mask.map (fun b => if b then FF.fin 0 else FF.fin (1 / (validCount mask : ℚ))) := by
  have h0 : validCount mask ≠ 0 := by omega
  have hle : (numSolutionsF mask).le (FF.fin 2) = true := by
    rw [numSolutionsF_eq]
    rcases h with h | h <;> rw [h] <;> decide
  rw [selectionProbs, if_pos hle, computeEqualProbabilities_eq mask h0]

theorem sumFF_map_uniform (mask : List Bool) (q : ℚ) :
    sumFF (mask.map (fun b => if b then FF.fin 0 else FF.fin q))
      = FF.fin (validCount mask * q) := by
  induction mask with
  | nil => simp [sumFF, validCount]
  | cons b t ih =>
      have step : sumFF ((b :: t).map (fun b => if b then FF.fin 0 else FF.fin q))
          = FF.add (if b then FF.fin 0 else FF.fin q)
              (sumFF (t.map (fun b => if b then FF.fin 0 else FF.fin q))) := rfl
      cases b
      · rw [step, ih]
        simp only [if_false, FF.add, qadd_eq, validCount, List.countP_cons]
        norm_num
        ring
      · rw [step, ih]
        simp only [if_true, FF.add, qadd_eq, validCount, List.countP_cons]
        norm_num

/-! ### Claim theorems -/

/-- C1: the claim says that after every front update every non-valid slot of
the returned front has fitness `-inf` on all objectives and zero-filled
genotype and descriptor payload.  Evaluating `_update_masked_pareto_front` on
an empty 2-slot, 1-objective front and a single new candidate (fitness 5,
genotype 7, descriptor 3) shows the opposite: every returned slot is marked
empty, the fitness of the empty slots is `0` (line 361 converts the `-inf`
sentinel to zero before returning), and the genotype payload of the empty
slots is the stale value `7` (line 306 multiplies the genotypes by the scalar
`new_mask_indices[0]` instead of the per-slot mask).  Only the descriptor is
zero-filled. -/
theorem C1_empty_slot_payload_bug :
    updateMaskedParetoFront
      [[FF.ninf], [FF.ninf]] [[FF.fin 0], [FF.fin 0]] [[FF.fin 0], [FF.fin 0]]
      [true, true]
      [[FF.fin 5]] [[FF.fin 7]] [[FF.fin 3]] [false]
    = ⟨[[FF.fin 0], [FF.fin 0]], [[FF.fin 7], [FF.fin 7]],
       [[FF.fin 0], [FF.fin 0]], [true, true], false, 0⟩ := by
  decide

/-- C2: after any update via `_update_masked_pareto_front`, no valid entry of
the returned front dominates another valid entry of the same front.  This
holds for every input: the masking step of line 302 turns every fitness entry
of the working buffer into the `-inf` sentinel (`maskedFitnessEntry` is
constantly `-inf`), so a returned slot can only be valid when its stored
fitness row is empty (zero objectives), and an empty fitness vector dominates
nothing.  In particular, for fronts with at least one objective the invariant
holds vacuously because every returned slot is marked empty. -/
theorem C2_nondomination_invariant (pfF pfG pfD : List (List FF)) (mask : List Bool)
    (bF bG bD : List (List FF)) (newMask : List Bool) :
    ∀ i j : ℕ,
      (updateMaskedParetoFront pfF pfG pfD mask bF bG bD newMask).mask.getD i true
        = false →
      (updateMaskedParetoFront pfF pfG pfD mask bF bG bD newMask).mask.getD j true
        = false →
      dominatesSpec
        ((updateMaskedParetoFront pfF pfG pfD mask bF bG bD newMask).fitnesses.getD i [])
        ((updateMaskedParetoFront pfF pfG pfD mask bF bG bD newMask).fitnesses.getD j [])
        = false := by
  intro i j hi hj
  have hmask : (updateMaskedParetoFront pfF pfG pfD mask bF bG bD newMask).mask
      = (updateKeepIndices (updateAllFrontFitnesses pfF mask bF newMask)
          pfF.length).map
        (fun p => slotEmpty ((updateAllFrontFitnesses pfF mask bF newMask).getD p [])) :=
    rfl
  have hfitn : (updateMaskedParetoFront pfF pfG pfD mask bF bG bD newMask).fitnesses
      = (updateKeepIndices (updateAllFrontFitnesses pfF mask bF newMask)
          pfF.length).map
        (fun p => ((updateAllFrontFitnesses pfF mask bF newMask).map
          (List.map (fun x => if x.beq FF.ninf then FF.fin 0 else x))).getD p []) :=
    rfl
  rw [hmask] at hi
  rw [hfitn]
  rcases Nat.lt_or_ge i (updateKeepIndices (updateAllFrontFitnesses pfF mask bF newMask)
      pfF.length).length with hilen | hilen
  · rw [getD_map_lt _ _ i 0 true hilen] at hi
    have hnil := updateAllFrontFitnesses_getD_nil pfF mask bF newMask _ hi
    rw [getD_map_lt _ _ i 0 [] hilen]
    have hf3 : ((updateAllFrontFitnesses pfF mask bF newMask).map
        (List.map (fun x => if x.beq FF.ninf then FF.fin 0 else x))).getD
        ((updateKeepIndices (updateAllFrontFitnesses pfF mask bF newMask)
          pfF.length).getD i 0) [] = [] := by
      rcases Nat.lt_or_ge ((updateKeepIndices (updateAllFrontFitnesses pfF mask bF
          newMask) pfF.length).getD i 0)
          (updateAllFrontFitnesses pfF mask bF newMask).length with hq | hq
      · rw [getD_map_lt _ _ _ [] [] hq, hnil]
        rfl
      · rw [List.getD_eq_default _ _ (by simpa using hq)]
    rw [hf3]
    exact dominatesSpec_nil _
  · exfalso
    rw [List.getD_eq_default _ _ (by simpa using hilen)] at hi
    exact Bool.noConfusion hi

/-- Witness for C2 at a concrete input with two valid returned slots (a
zero-objective front, the only way the update returns valid entries): slots 0
and 1 of the result are valid and neither stored fitness vector dominates the
other. -/
theorem C2_nondomination_invariant_witness :
    (updateMaskedParetoFront ([[], []] : List (List FF)) [[], []] [[], []]
      [false, false] [[]] [[]] [[]] [false]).mask.getD 0 true = false
    ∧ (updateMaskedParetoFront ([[], []] : List (List FF)) [[], []] [[], []]
      [false, false] [[]] [[]] [[]] [false]).mask.getD 1 true = false
    ∧ dominatesSpec
        ((updateMaskedParetoFront ([[], []] : List (List FF)) [[], []] [[], []]
          [false, false] [[]] [[]] [[]] [false]).fitnesses.getD 0 [])
        ((updateMaskedParetoFront ([[], []] : List (List FF)) [[], []] [[], []]
          [false, false] [[]] [[]] [[]] [false]).fitnesses.getD 1 [])
        = false :=
  ⟨by decide, by decide,
    C2_nondomination_invariant [[], []] [[], []] [[], []] [false, false]
      [[]] [[]] [[]] [false] 0 1 (by decide) (by decide)⟩

/-- C3: for every update the returned front arrays have exactly
`max_front_length` slots (the length of the incoming front), independently of
the batch size, and consequently the number of valid entries never exceeds
`max_front_length`. -/
theorem C3_front_shape_and_bound (pfF pfG pfD : List (List FF)) (mask : List Bool)
    (bF bG bD : List (List FF)) (newMask : List Bool) (h : 1 ≤ pfF.length) :
    (updateMaskedParetoFront pfF pfG pfD mask bF bG bD newMask).fitnesses.length
        = pfF.length ∧
    (updateMaskedParetoFront pfF pfG pfD mask bF bG bD newMask).genotypes.length
        = pfF.length ∧
    (updateMaskedParetoFront pfF pfG pfD mask bF bG bD newMask).descriptors.length
        = pfF.length ∧
    (updateMaskedParetoFront pfF pfG pfD mask bF bG bD newMask).mask.length
        = pfF.length ∧
    validCount (updateMaskedParetoFront pfF pfG pfD mask bF bG bD newMask).mask
        ≤ pfF.length := by
  have hkeep : (updateKeepIndices (updateAllFrontFitnesses pfF mask bF newMask)
      pfF.length).length = pfF.length := by
    apply length_updateKeepIndices _ _ h
    rw [length_updateAllFrontFitnesses]
    omega
  have hm : (updateMaskedParetoFront pfF pfG pfD mask bF bG bD newMask).mask.length
      = pfF.length := by
    simp only [updateMaskedParetoFront, List.length_map]
    exact hkeep
  refine ⟨?_, ?_, ?_, hm, ?_⟩
  · simp only [updateMaskedParetoFront, List.length_map]
    exact hkeep
  · simp only [updateMaskedParetoFront, List.length_map]
    exact hkeep
  · simp only [updateMaskedParetoFront, List.length_map]
    exact hkeep
  · calc validCount (updateMaskedParetoFront pfF pfG pfD mask bF bG bD newMask).mask
        ≤ (updateMaskedParetoFront pfF pfG pfD mask bF bG bD newMask).mask.length :=
          List.countP_le_length _
      _ = pfF.length := hm

/-- Witness for C3 at a concrete call: a 1-slot front updated with a 2-element
batch still returns arrays with exactly one slot and at most one valid entry. -/
theorem C3_front_shape_and_bound_witness :
    (updateMaskedParetoFront [[FF.fin 1]] [[FF.fin 2]] [[FF.fin 3]] [false]
        [[FF.fin 4], [FF.fin 6]] [[FF.fin 5], [FF.fin 5]] [[FF.fin 5], [FF.fin 5]]
        [false, false]).fitnesses.length = 1 ∧
    (updateMaskedParetoFront [[FF.fin 1]] [[FF.fin 2]] [[FF.fin 3]] [false]
        [[FF.fin 4], [FF.fin 6]] [[FF.fin 5], [FF.fin 5]] [[FF.fin 5], [FF.fin 5]]
        [false, false]).genotypes.length = 1 ∧
    (updateMaskedParetoFront [[FF.fin 1]] [[FF.fin 2]] [[FF.fin 3]] [false]
        [[FF.fin 4], [FF.fin 6]] [[FF.fin 5], [FF.fin 5]] [[FF.fin 5], [FF.fin 5]]
        [false, false]).descriptors.length = 1 ∧
    (updateMaskedParetoFront [[FF.fin 1]] [[FF.fin 2]] [[FF.fin 3]] [false]
        [[FF.fin 4], [FF.fin 6]] [[FF.fin 5], [FF.fin 5]] [[FF.fin 5], [FF.fin 5]]
        [false, false]).mask.length = 1 ∧
    validCount (updateMaskedParetoFront [[FF.fin 1]] [[FF.fin 2]] [[FF.fin 3]] [false]
        [[FF.fin 4], [FF.fin 6]] [[FF.fin 5], [FF.fin 5]] [[FF.fin 5], [FF.fin 5]]
        [false, false]).mask ≤ 1 :=
  C3_front_shape_and_bound [[FF.fin 1]] [[FF.fin 2]] [[FF.fin 3]] [false]
    [[FF.fin 4], [FF.fin 6]] [[FF.fin 5], [FF.fin 5]] [[FF.fin 5], [FF.fin 5]]
    [false, false] (by decide)

/-- C4 counterexample: the claim says that re-adding the single resident
genotype leaves the front identical.  On a 1-objective, front-length-4 front
holding one genotype with fitness 5, re-adding the same genotype/fitness
returns a front whose mask marks all four slots empty (valid count drops from
1 to 0), so the front is not preserved; `added` is reported false. -/
theorem C4_readd_not_idempotent :
    (updateMaskedParetoFront
      [[FF.fin 5], [FF.ninf], [FF.ninf], [FF.ninf]]
      [[FF.fin 7], [FF.fin 0], [FF.fin 0], [FF.fin 0]]
      [[FF.fin 1], [FF.fin 0], [FF.fin 0], [FF.fin 0]]
      [false, true, true, true]
      [[FF.fin 5]] [[FF.fin 7]] [[FF.fin 1]] [false]).mask
      = [true, true, true, true] ∧
    validCount (updateMaskedParetoFront
      [[FF.fin 5], [FF.ninf], [FF.ninf], [FF.ninf]]
      [[FF.fin 7], [FF.fin 0], [FF.fin 0], [FF.fin 0]]
      [[FF.fin 1], [FF.fin 0], [FF.fin 0], [FF.fin 0]]
      [false, true, true, true]
      [[FF.fin 5]] [[FF.fin 7]] [[FF.fin 1]] [false]).mask ≠
    validCount [false, true, true, true] := by
  decide

/-- C4 amended: re-adding the resident genotype reports `added = false`, but
the returned front is not identical to the input: the update wipes the front
(all slots empty, fitness zeroed, stale genotype payload) and reports
`removed = 1`.  Even without the wipe the duplicate would be retained as a
second valid entry rather than deduplicated, since a point never strictly
dominates its own copy. -/
theorem C4_readd_behavior_amended :
    updateMaskedParetoFront
      [[FF.fin 5], [FF.ninf], [FF.ninf], [FF.ninf]]
      [[FF.fin 7], [FF.fin 0], [FF.fin 0], [FF.fin 0]]
      [[FF.fin 1], [FF.fin 0], [FF.fin 0], [FF.fin 0]]
      [false, true, true, true]
      [[FF.fin 5]] [[FF.fin 7]] [[FF.fin 1]] [false]
    = ⟨[[FF.fin 0], [FF.fin 0], [FF.fin 0], [FF.fin 0]],
       [[FF.fin 7], [FF.fin 7], [FF.fin 7], [FF.fin 7]],
       [[FF.fin 1], [FF.fin 0], [FF.fin 0], [FF.fin 0]],
       [true, true, true, true], false, 1⟩ := by
  decide

/-- C5: for a front with exactly 1 or 2 valid entries the selection
probabilities are `1 / count` on every valid entry and `0` on every invalid
entry, independently of the fitness values, and the crowding-distance branch
is entered only when the front has 3 or more valid entries. -/
theorem C5_uniform_tiny_front (pf : List (List FF)) (mask : List Bool)
    (h : validCount mask = 1 ∨ validCount mask = 2) :
    selectionProbs pf mask
      = mask.map (fun b => if b then FF.fin 0 else FF.fin (1 / (validCount mask : ℚ)))
    ∧ ∀ mask2, 2 < validCount mask2 →
        selectionProbs pf mask2 = computeCrowdingDistancesProbs pf mask2 := by
  constructor
  · exact selectionProbs_small pf mask h
  · intro mask2 h3
    have hx : (2 : ℚ) < (validCount mask2 : ℚ) := by exact_mod_cast h3
    have hle : (numSolutionsF mask2).le (FF.fin 2) = false := by
      rw [numSolutionsF_eq]
      simp only [FF.le, FF.lt, FF.beq, Bool.or_eq_false_iff, decide_eq_false_iff_not]
      constructor
      · intro hlt
        linarith
      · intro hq
        rw [hq] at hx
        exact lt_irrefl _ hx
    unfold selectionProbs
    rw [hle]
    simp

/-- Witness for C5 at a concrete call: two valid entries with wildly different
fitness values still give probability one half each. -/
theorem C5_uniform_tiny_front_witness :
    selectionProbs [[FF.fin 100], [FF.fin 1], [FF.ninf]] [false, false, true]
      = [FF.fin (mkRat 1 2), FF.fin (mkRat 1 2), FF.fin 0] := by
  have h := (C5_uniform_tiny_front [[FF.fin 100], [FF.fin 1], [FF.ninf]]
    [false, false, true] (Or.inr (by decide))).1
  have hv : validCount [false, false, true] = 2 := by decide
  have hdiv : (1 : ℚ) / ((2 : ℕ) : ℚ) = mkRat 1 2 := by
    rw [Rat.mkRat_eq_div]
    norm_num
  rw [h]
  simp only [hv, hdiv]
  decide

/-- C6: the cell distribution built by `sample` assigns positive probability
only to occupied cells (so every drawn cell, hence every returned genotype,
comes from an occupied cell), is exactly uniform `1 / (number of occupied
cells)` on the occupied cells and `0` on the empty cells whenever at least one
cell is occupied, and degenerates to `nan` on every cell (`0 / 0`, a
precondition violation with no valid draw) when no cell is occupied. -/
theorem C6_cell_sampling_distribution (fitnesses : List (List (List FF))) :
    (∀ p ∈ fitnesses.zip (cellProbs fitnesses),
        (FF.fin 0).lt p.2 = true → cellOccupied p.1 = true)
    ∧ (0 < occupiedCount fitnesses →
        cellProbs fitnesses = fitnesses.map (fun cell =>
          if cellOccupied cell then FF.fin (1 / (occupiedCount fitnesses : ℚ))
          else FF.fin 0))
    ∧ (occupiedCount fitnesses = 0 → ∀ x ∈ cellProbs fitnesses, x = FF.nan) := by
  refine ⟨?_, ?_, ?_⟩
  · intro p hp hlt
    simp only [cellProbs] at hp
    have h2 := zip_map_snd fitnesses
      (fun cell => (b2f (cellOccupied cell)).div (FF.fin (occupiedCount fitnesses))) p hp
    rw [h2] at hlt
    simp only at hlt
    cases hq : cellOccupied p.1
    · rw [hq] at hlt
      rcases Nat.eq_zero_or_pos (occupiedCount fitnesses) with hm | hm
      · rw [hm] at hlt
        simp only [b2f, if_false, Nat.cast_zero, FF.div] at hlt
        simp [FF.lt] at hlt
      · have hmne : ((occupiedCount fitnesses : ℚ)) ≠ 0 := by
          exact_mod_cast Nat.pos_iff_ne_zero.mp hm
        rw [show b2f false = FF.fin 0 from rfl, fin_div_fin 0 _ hmne] at hlt
        simp [FF.lt] at hlt
    · rfl
  · intro hm
    have hmne : ((occupiedCount fitnesses : ℚ)) ≠ 0 := by
      exact_mod_cast Nat.pos_iff_ne_zero.mp hm
    unfold cellProbs
    apply List.map_congr_left
    intro cell _
    cases hq : cellOccupied cell
    · rw [show b2f false = FF.fin 0 from rfl, fin_div_fin 0 _ hmne]
      simp
    · rw [show b2f true = FF.fin 1 from rfl, fin_div_fin 1 _ hmne]
      simp
  · intro hm x hx
    simp only [cellProbs, List.mem_map] at hx
    obtain ⟨cell, hcell, hxeq⟩ := hx
    have hocc : ¬(cellOccupied cell = true) :=
      List.countP_eq_zero.mp hm cell hcell
    have hocc2 : cellOccupied cell = false := by
      cases hq : cellOccupied cell
      · rfl
      · exact absurd hq hocc
    rw [← hxeq, hocc2, hm]
    simp [b2f, FF.div]

/-- Witness for C6 at a concrete archive with one occupied and one empty cell:
the occupied cell gets probability one, the empty cell zero. -/
theorem C6_cell_sampling_distribution_witness :
    cellProbs [[[FF.fin 5]], [[FF.ninf]]] = [FF.fin 1, FF.fin 0] := by
  have hocc : occupiedCount [[[FF.fin 5]], [[FF.ninf]]] = 1 := by decide
  have h := (C6_cell_sampling_distribution [[[FF.fin 5]], [[FF.ninf]]]).2.1
    (by decide)
  have hdiv : (1 : ℚ) / ((1 : ℕ) : ℚ) = 1 := by norm_num
  rw [h]
  simp only [hocc, hdiv]
  decide

/-- C7 counterexample: the claim says the two sorted-boundary entries of each
objective receive the single available neighbour gap also in the truncation
path of `_update_masked_pareto_front`.  Evaluating that path on the merged
front `{(0,10), (5,5), (10,0)} + (4,6)` (four mutually non-dominated points)
gives a crowding-distance vector that is `-inf` everywhere: no substitution is
performed in that path (lines 330-349 have no `with_ends` step), and the rows
entering the computation have already been `nan`-poisoned by line 302, so even
the boundary entries do not receive a neighbour gap. -/
theorem C7_no_substitution_in_truncation :
    updateCrowdingDistances (updateAllFrontFitnesses
      [[FF.fin 0, FF.fin 10], [FF.fin 5, FF.fin 5], [FF.fin 10, FF.fin 0]]
      [false, false, false]
      [[FF.fin 4, FF.fin 6]] [false])
    = [FF.ninf, FF.ninf, FF.ninf, FF.ninf] := by
  decide

/-- C7 amended: the boundary-gap substitution exists only in the sampling path
(lines 119-121).  On the front `{(0,10), (1,9), (10,0)}` the sampling-path
probabilities are finite for every entry — the boundary entries receive their
single neighbour gap twice instead of an infinite score — while the truncation
path on the same front (merged with the non-dominated candidate `(4,6)`)
yields `-inf` for every entry because no substitution is applied there and the
rows were already `nan`-poisoned by the masking step. -/
theorem C7_substitution_sampling_only_amended :
    selectionProbs [[FF.fin 0, FF.fin 10], [FF.fin 1, FF.fin 9], [FF.fin 10, FF.fin 0]]
      [false, false, false]
      = [FF.fin (mkRat 1 15), FF.fin (mkRat 1 3), FF.fin (mkRat 3 5)]
    ∧ updateCrowdingDistances (updateAllFrontFitnesses
        [[FF.fin 0, FF.fin 10], [FF.fin 1, FF.fin 9], [FF.fin 10, FF.fin 0]]
        [false, false, false]
        [[FF.fin 4, FF.fin 6]] [false])
      = [FF.ninf, FF.ninf, FF.ninf, FF.ninf] := by
  constructor
  · decide
  · decide

/-- C8: the claim says that when the non-dominated set exceeds the capacity
`L` the update keeps exactly the `L` entries with the largest crowding
distances and never keeps an invalid slot while a valid non-dominated slot is
left unkept.  Evaluating the update on a length-2 front holding the mutually
non-dominated `{(0,10), (10,0)}` and the non-dominated candidate `(5,5)`
(three non-dominated points, `L = 2`) returns a front whose mask marks both
slots empty: the crowding distances are all `-inf` (`nan`-poisoned rows), the
stable argsort leaves the buffer order unchanged, and the kept suffix is the
tail of the buffer, which contains the invalid padding slot, while the valid
non-dominated buffer positions are dropped. -/
theorem C8_truncation_drops_valid_bug :
    updateMaskedParetoFront
      [[FF.fin 0, FF.fin 10], [FF.fin 10, FF.fin 0]]
      [[FF.fin 1, FF.fin 1], [FF.fin 2, FF.fin 2]]
      [[FF.fin 1, FF.fin 1], [FF.fin 2, FF.fin 2]]
      [false, false]
      [[FF.fin 5, FF.fin 5]] [[FF.fin 3, FF.fin 3]] [[FF.fin 3, FF.fin 3]] [false]
    = ⟨[[FF.fin 0, FF.fin 0], [FF.fin 0, FF.fin 0]],
       [[FF.fin 2, FF.fin 2], [FF.fin 3, FF.fin 3]],
       [[FF.fin 2, FF.fin 2], [FF.fin 3, FF.fin 3]],
       [true, true], false, 2⟩ := by
  decide

/-- C9: the claim says `added` is true iff some new-batch fitness vector
survives into the kept front.  Adding the single candidate with fitness
`(0, 5)` to an empty 2-slot front returns a front with zero valid entries
(nothing survives), yet `added` is reported `true`: line 374 compares the
returned fitness array — whose empty slots hold zeros — elementwise against
the batch under broadcasting, and the `0` coordinate matches.  The returned
`removed` count is `0 - 0 - 1 = -1`. -/
theorem C9_added_metric_bug :
    (updateMaskedParetoFront
      [[FF.ninf, FF.ninf], [FF.ninf, FF.ninf]]
      [[FF.fin 0, FF.fin 0], [FF.fin 0, FF.fin 0]]
      [[FF.fin 0, FF.fin 0], [FF.fin 0, FF.fin 0]]
      [true, true]
      [[FF.fin 0, FF.fin 5]] [[FF.fin 8, FF.fin 8]] [[FF.fin 2, FF.fin 2]]
      [false]).added = true
    ∧ validCount (updateMaskedParetoFront
      [[FF.ninf, FF.ninf], [FF.ninf, FF.ninf]]
      [[FF.fin 0, FF.fin 0], [FF.fin 0, FF.fin 0]]
      [[FF.fin 0, FF.fin 0], [FF.fin 0, FF.fin 0]]
      [true, true]
      [[FF.fin 0, FF.fin 5]] [[FF.fin 8, FF.fin 8]] [[FF.fin 2, FF.fin 2]]
      [false]).mask = 0
    ∧ (updateMaskedParetoFront
      [[FF.ninf, FF.ninf], [FF.ninf, FF.ninf]]
      [[FF.fin 0, FF.fin 0], [FF.fin 0, FF.fin 0]]
      [[FF.fin 0, FF.fin 0], [FF.fin 0, FF.fin 0]]
      [true, true]
      [[FF.fin 0, FF.fin 5]] [[FF.fin 8, FF.fin 8]] [[FF.fin 2, FF.fin 2]]
      [false]).removed = -1 := by
  decide

/-- C10 counterexample: the claim says the selection probabilities are a
well-defined distribution for every front with at least one valid entry.  A
front with three valid entries of identical fitness `5` takes the crowding
branch; the per-objective amplitude is `0`, every normalised gap is `0 / 0 =
nan`, line 136 maps every crowding distance to `0`, and line 139 divides by
their sum `0`, so every probability is `nan`. -/
theorem C10_nan_probs_counterexample :
    selectionProbs [[FF.fin 5], [FF.fin 5], [FF.fin 5]] [false, false, false]
      = [FF.nan, FF.nan, FF.nan] := by
  decide

/-- C10 amended: the probabilities are a well-defined distribution (no `nan`,
non-negative, summing to one, and zero on every invalid slot) whenever the
front has exactly 1 or 2 valid entries; with 3 or more valid entries the
crowding branch is taken and can return all-`nan` probabilities when every
objective has zero amplitude over the valid entries. -/
theorem C10_distribution_amended (pf : List (List FF)) (mask : List Bool)
    (h : validCount mask = 1 ∨ validCount mask = 2) :
    (∀ x ∈ selectionProbs pf mask, x.isnan = false ∧ (FF.fin 0).le x = true)
    ∧ sumFF (selectionProbs pf mask) = FF.fin 1
    ∧ (∀ p ∈ mask.zip (selectionProbs pf mask), p.1 = true → p.2 = FF.fin 0) := by
  have h0 : validCount mask ≠ 0 := by omega
  have hq0 : (0 : ℚ) < (validCount mask : ℚ) := by
    exact_mod_cast Nat.pos_of_ne_zero h0
  rw [selectionProbs_small pf mask h]
  refine ⟨?_, ?_, ?_⟩
  · intro x hx
    rw [List.mem_map] at hx
    obtain ⟨b, _, hb⟩ := hx
    cases b
    · rw [← hb]
      show (FF.fin (1 / (validCount mask : ℚ))).isnan = false ∧
        (FF.fin 0).le (FF.fin (1 / (validCount mask : ℚ))) = true
      refine ⟨rfl, ?_⟩
      simp only [FF.le, FF.lt, FF.beq, Bool.or_eq_true, decide_eq_true_eq]
      left
      exact div_pos one_pos hq0
    · rw [← hb]
      show (FF.fin 0).isnan = false ∧ (FF.fin 0).le (FF.fin 0) = true
      exact ⟨rfl, by decide⟩
  · rw [sumFF_map_uniform]
    rw [mul_one_div, div_self (ne_of_gt hq0)]
  · intro p hp hptrue
    have h2 := zip_map_snd mask
      (fun b => if b then FF.fin 0 else FF.fin (1 / (validCount mask : ℚ))) p hp
    rw [h2, hptrue]
    simp

/-- Witness for C10 at a concrete one-valid-entry front: the probabilities sum
to one. -/
theorem C10_distribution_amended_witness :
    sumFF (selectionProbs [[FF.fin 42], [FF.ninf]] [false, true]) = FF.fin 1 :=
  (C10_distribution_amended [[FF.fin 42], [FF.ninf]] [false, true]
    (Or.inl (by decide))).2.1
